import Mathlib

/-!
Shallow embedding of the analytics core of `src/analyzers/portfolio_analyzer.py`
(class `PortfolioAnalyzer`), together with proofs settling the specification
claims about it.

Conventions of the embedding:
* numeric cells are exact rationals (`ℚ`); IEEE-754 special values that the
  pandas/numpy code can produce (NaN from 0/0 or null cells, ±inf from
  division by zero) are modelled explicitly by the inductive type `FV`;
* a price matrix handed to `calculate_returns` is a list of rows (the
  DataFrame's date-indexed rows), each row a list of `FV` cells;
* the tables handed to the metric functions are column-oriented: a `DFQ` is a
  list of `(symbol, column)` pairs, mirroring a DataFrame with symbol-named
  columns, and a `Series α` is a list of `(symbol, value)` pairs;
* dates are day numbers (`ℕ`), so `timedelta(days = k)` is `+ k`;
* values that are irrational in the source (`np.log`, `np.sqrt`,
  `scipy.stats.norm.ppf`) live in `ℝ`; everything rational stays computable;
* Python exceptions (`ValueError`) are modelled by `Except String`.
-/

namespace PortfolioAnalyzer

/-- A float-valued cell: a finite rational, one of the two infinities, or NaN
(which also stands for a null/missing cell, as in a pandas float column). -/
inductive FV where
  | fin (q : ℚ)
  | pinf
  | ninf
  | nan
deriving DecidableEq, Repr

/-- Whether a cell is NaN (pandas treats NaN as the missing-value marker). -/
def FV.isNan : FV → Bool
  | .nan => true
  | _ => false

/-- The rational payload of a finite cell (junk `0` on the special values). -/
def FV.toQ : FV → ℚ
  | .fin q => q
  | _ => 0

/-- IEEE-style division on cells.  The finite/finite case with a zero
denominator follows numpy: `0/0 = NaN`, `x/0 = ±inf` for `x ≠ 0` (there is no
negative zero in this model). -/
def fdiv : FV → FV → FV
  | .nan, _ => .nan
  | _, .nan => .nan
  | .fin a, .fin b =>
      if b = 0 then (if a = 0 then .nan else if 0 < a then .pinf else .ninf)
      else .fin (a / b)
  | .fin _, .pinf => .fin 0
  | .fin _, .ninf => .fin 0
  | .pinf, .fin b => if b < 0 then .ninf else .pinf
  | .ninf, .fin b => if b < 0 then .pinf else .ninf
  | .pinf, .pinf => .nan
  | .pinf, .ninf => .nan
  | .ninf, .pinf => .nan
  | .ninf, .ninf => .nan

/-- Subtract 1 from a cell (the `- 1` of `pct_change`). -/
def fsub1 : FV → FV
  | .fin q => .fin (q - 1)
  | .pinf => .pinf
  | .ninf => .ninf
  | .nan => .nan

/-- A real-valued cell, used for the result of `np.log` (log returns are
irrational in general). -/
inductive LV where
  | fin (r : ℝ)
  | pinf
  | ninf
  | nan

/-- Whether a real-valued cell is NaN. -/
def LV.isNan : LV → Bool
  | .nan => true
  | _ => false

/-- `np.log` on a cell: positive finite arguments give a finite logarithm,
`log 0 = -inf`, negatives give NaN, `log inf = inf`. -/
noncomputable def flog : FV → LV
  | .fin q => if 0 < q then .fin (Real.log (q : ℝ)) else if q = 0 then .ninf else .nan
  | .pinf => .pinf
  | .ninf => .nan
  | .nan => .nan

/-- Apply `f prev cur` elementwise to each row and the row one date earlier,
as `prices / prices.shift(1)` does.  The first row has no predecessor, so its
cells are computed against the shifted-in NaN. -/
def shiftMap {α : Type} (f : FV → FV → α) : List (List FV) → List (List α)
  | [] => []
  | r0 :: rest =>
      r0.map (fun c => f FV.nan c) :: List.zipWith (List.zipWith f) (r0 :: rest) rest

/-- `DataFrame.dropna()`: drop every row containing at least one NaN cell. -/
def dropnaRows {α : Type} (isN : α → Bool) (rows : List (List α)) : List (List α) :=
  rows.filter (fun r => !(r.any isN))

/-- The returns matrix produced by `calculate_returns`: a matrix of rational
cells for simple returns, of real cells for log returns. -/
inductive RetMat where
  | simple (m : List (List FV))
  | log (m : List (List LV))

/-- Row count of a returns matrix. -/
def RetMat.numRows : RetMat → ℕ
  | .simple m => m.length
  | .log m => m.length

/-- Row count of a `calculate_returns` result (`0` on the error branch). -/
def retRows : Except String RetMat → ℕ
  | .ok m => m.numRows
  | .error _ => 0

/-- `PortfolioAnalyzer.calculate_returns` (lines 111-136): simple returns via
`prices.pct_change()` (= `prices / prices.shift(1) - 1`), log returns via
`np.log(prices / prices.shift(1))`, then `dropna()`; any other `return_type`
raises `ValueError`. -/
noncomputable def calculate_returns (prices : List (List FV)) (return_type : String) :
    Except String RetMat :=
  if return_type = "simple" then
    .ok (.simple (dropnaRows FV.isNan (shiftMap (fun p c => fsub1 (fdiv c p)) prices)))
  else if return_type = "log" then
    .ok (.log (dropnaRows LV.isNan (shiftMap (fun p c => flog (fdiv c p)) prices)))
  else
    .error ("Invalid return_type: " ++ return_type)

/-- The date-generation loop of `fetch_historical_data` (lines 74-78):
`while current <= end: dates.append(current); current += delta`.  Dates are
day numbers; `step` is the delta in days.  The guard `0 < step` (always true
in the source, where the delta is 1, 7 or 30 days) makes the loop terminate. -/
def dateRange (start endd step : ℕ) : List ℕ :=
  if _h : 0 < step ∧ start ≤ endd then
    start :: dateRange (start + step) endd step
  else
    []
termination_by endd + 1 - start
decreasing_by omega

/-- The interval dispatch of `fetch_historical_data` (lines 65-72): `daily`
is a 1-day step, `weekly` a 7-day step, `monthly` a fixed 30-day step;
anything else raises `ValueError` (`none` here). -/
def intervalDelta (interval : String) : Option ℕ :=
  if interval = "daily" then some 1
  else if interval = "weekly" then some 7
  else if interval = "monthly" then some 30
  else none

/-- Forward-fill scan: `carry` is the most recent non-NaN cell seen so far;
each NaN cell is replaced by it (or left NaN if there is none yet). -/
def ffillGo (carry : Option FV) : List FV → List FV
  | [] => []
  | c :: rest =>
      if c.isNan then (carry.getD FV.nan) :: ffillGo carry rest
      else c :: ffillGo (some c) rest

/-- `DataFrame.ffill()` down one column. -/
def ffill (col : List FV) : List FV := ffillGo none col

/-- `DataFrame.bfill()` down one column, as a reversed forward fill. -/
def bfill (col : List FV) : List FV := (ffillGo none col.reverse).reverse

/-- The aligned price table built by `fetch_historical_data`: a date index and
one price column per symbol. -/
structure HistDF where
  dates : List ℕ
  cols : List (String × List FV)
deriving DecidableEq, Repr

/-- The date index of a `fetch_historical_data` result (`[]` on error). -/
def histDates : List (String × ℕ) × Except String HistDF → List ℕ
  | (_, .ok df) => df.dates
  | (_, .error _) => []

/-- `PortfolioAnalyzer.fetch_historical_data` (lines 34-109).  The external
fetcher is a function from symbol and date to an optional price: `none`
covers both a missing `price` field and a raised exception, which the source
catches and records as a null cell.  The first component of the result is the
log of `(symbol, date)` fetch requests issued (empty when the interval is
invalid, since the `ValueError` is raised before any fetch); the second is
the resulting table, forward- then backward-filled per column. -/
def fetch_historical_data (fetcher : String → ℕ → Option ℚ) (symbols : List String)
    (start_date end_date : ℕ) (interval : String) :
    List (String × ℕ) × Except String HistDF :=
  match intervalDelta interval with
  | none => ([], .error ("Invalid interval: " ++ interval))
  | some delta =>
      let dates := dateRange start_date end_date delta
      let queries := symbols.flatMap (fun s => dates.map (fun d => (s, d)))
      let cols := symbols.map (fun s =>
        (s, bfill (ffill (dates.map (fun d =>
              match fetcher s d with
              | some q => FV.fin q
              | none => FV.nan)))))
      (queries, .ok { dates := dates, cols := cols })

/-! ## Column-oriented tables and the per-column statistics

The metric functions all operate per symbol column on a returns (or price)
matrix that, in the claims' scope, contains no missing cells; columns are
therefore plain rational lists. -/

/-- A pandas `Series` with a symbol index: `(symbol, value)` pairs. -/
abbrev Series (α : Type) := List (String × α)

/-- A DataFrame with symbol-named columns: `(symbol, column)` pairs. -/
abbrev DFQ := List (String × List ℚ)

/-- `Series.mean()`: arithmetic mean (junk `0` on the empty column, where
pandas yields NaN; all claims about means assume non-empty columns). -/
def meanQ (c : List ℚ) : ℚ := c.sum / (c.length : ℚ)

/-- `Series.var()`: sample variance with denominator `n - 1` (pandas default
`ddof = 1`; junk `0` when `n ≤ 1`, where pandas yields NaN). -/
def varQ (c : List ℚ) : ℚ :=
  (c.map (fun x => (x - meanQ c) ^ 2)).sum / ((c.length - 1 : ℕ) : ℚ)

/-- `Series.cov(other)`: sample covariance over the positionally paired
observations, denominator `n - 1`. -/
def covQ (x y : List ℚ) : ℚ :=
  let ps := x.zip y
  let mx := meanQ (ps.map Prod.fst)
  let my := meanQ (ps.map Prod.snd)
  (ps.map (fun p => (p.1 - mx) * (p.2 - my))).sum / ((ps.length - 1 : ℕ) : ℚ)

/-- Insert into a sorted list (ascending). -/
def insertSorted (x : ℚ) : List ℚ → List ℚ
  | [] => [x]
  | y :: ys => if x ≤ y then x :: y :: ys else y :: insertSorted x ys

/-- Sort a column ascending (insertion sort; only the sorted result is
observable through `quantile`). -/
def sortQ : List ℚ → List ℚ
  | [] => []
  | x :: xs => insertSorted x (sortQ xs)

/-- `Series.quantile(q)` with pandas' default linear interpolation: with the
sorted sample `s` of size `n`, the quantile sits at position `h = (n-1)·q`,
interpolated between `s[⌊h⌋]` and `s[⌊h⌋+1]` (junk `0` on an empty column,
where pandas yields NaN). -/
def quantileQ (q : ℚ) (c : List ℚ) : ℚ :=
  let s := sortQ c
  let n := s.length
  if n = 0 then 0
  else
    let h : ℚ := ((n - 1 : ℕ) : ℚ) * q
    let i : ℕ := h.floor.toNat
    let lo := s.getD i 0
    lo + (h - (i : ℚ)) * (s.getD (i + 1) 0 - lo)

/-- Running maximum, carrying the maximum `m` seen so far. -/
def cummaxGo (m : ℚ) : List ℚ → List ℚ
  | [] => []
  | x :: xs => max m x :: cummaxGo (max m x) xs

/-- `Series.cummax()`. -/
def cummax : List ℚ → List ℚ
  | [] => []
  | x :: xs => x :: cummaxGo x xs

/-- Max drawdown of one price column (`calculate_max_drawdown` lines 373-384):
the minimum over dates of `(price - cummax) / cummax` (junk `0` on an empty
column, where pandas yields NaN). -/
def mddCol (c : List ℚ) : ℚ :=
  let dd := List.zipWith (fun p m => (p - m) / m) c (cummax c)
  match dd with
  | [] => 0
  | x :: xs => xs.foldl min x

/-- `PortfolioAnalyzer.calculate_max_drawdown` (lines 347-384), per symbol. -/
def calculate_max_drawdown (prices : DFQ) : Series ℚ :=
  prices.map (fun nc => (nc.1, mddCol nc.2))

/-- `PortfolioAnalyzer.calculate_volatility` (lines 194-223): per-column
standard deviation `returns.std()`, multiplied by `√trading_days` when
`annualize` is set. -/
noncomputable def calculate_volatility (returns : DFQ) (annualize : Bool)
    (trading_days : ℕ) : Series ℝ :=
  let vol : Series ℝ := returns.map (fun nc => (nc.1, Real.sqrt ((varQ nc.2 : ℚ) : ℝ)))
  if annualize then vol.map (fun nv => (nv.1, nv.2 * Real.sqrt (trading_days : ℝ)))
  else vol

/-- `PortfolioAnalyzer.calculate_variance` (lines 225-254): per-column sample
variance `returns.var()`, multiplied by `trading_days` when `annualize` is
set. -/
def calculate_variance (returns : DFQ) (annualize : Bool) (trading_days : ℕ) :
    Series ℚ :=
  let v : Series ℚ := returns.map (fun nc => (nc.1, varQ nc.2))
  if annualize then v.map (fun nv => (nv.1, nv.2 * (trading_days : ℚ)))
  else v

/-- `PortfolioAnalyzer.calculate_sharpe_ratio` (lines 256-298):
`(returns.mean()*td - rf) / (returns.std()*√td)` per symbol. -/
noncomputable def calculate_sharpe_ratio (rf : ℚ) (returns : DFQ) (trading_days : ℕ) :
    Series ℝ :=
  returns.map (fun nc =>
    (nc.1, ((meanQ nc.2 * (trading_days : ℚ) - rf : ℚ) : ℝ) /
      (Real.sqrt ((varQ nc.2 : ℚ) : ℝ) * Real.sqrt (trading_days : ℝ))))

/-- The in-place clamp `downside_returns[downside_returns > 0] = 0` applied
to one column. -/
def clampCol (c : List ℚ) : List ℚ := c.map (fun x => if 0 < x then 0 else x)

/-- `PortfolioAnalyzer.calculate_sortino_ratio` (lines 300-345): the Sharpe
numerator over the standard deviation of the positive-clamped returns,
annualized. -/
noncomputable def calculate_sortino_ratio (rf : ℚ) (returns : DFQ) (trading_days : ℕ) :
    Series ℝ :=
  returns.map (fun nc =>
    (nc.1, ((meanQ nc.2 * (trading_days : ℚ) - rf : ℚ) : ℝ) /
      (Real.sqrt ((varQ (clampCol nc.2) : ℚ) : ℝ) * Real.sqrt (trading_days : ℝ))))

/-- The result of `calculate_value_at_risk`: the historical branch is exact
(rational quantiles); the parametric branch involves the standard-normal
quantile and the standard deviation, hence lives in `ℝ`. -/
inductive VarResult where
  | hist (s : Series ℚ)
  | param (s : Series ℝ)

/-- `PortfolioAnalyzer.calculate_value_at_risk` (lines 386-430).  `ppf` is
the external `scipy.stats.norm.ppf`, passed in abstractly (it is used only on
the parametric branch).  Any method other than `historical` or `parametric`
raises `ValueError`. -/
noncomputable def calculate_value_at_risk (ppf : ℚ → ℝ) (returns : DFQ)
    (confidence_level : ℚ) (method : String) : Except String VarResult :=
  if method = "historical" then
    .ok (.hist (returns.map (fun nc => (nc.1, quantileQ (1 - confidence_level) nc.2))))
  else if method = "parametric" then
    .ok (.param (returns.map (fun nc =>
      (nc.1, ((meanQ nc.2 : ℚ) : ℝ) +
        ppf (1 - confidence_level) * Real.sqrt ((varQ nc.2 : ℚ) : ℝ)))))
  else
    .error ("Invalid method: " ++ method)

/-- CVaR of one column (`calculate_conditional_var` lines 461-470): the mean
of the observations at or below the historical VaR threshold, falling back to
the threshold itself when no observation qualifies. -/
def cvarCol (confidence_level : ℚ) (c : List ℚ) : ℚ :=
  let thr := quantileQ (1 - confidence_level) c
  let tail := c.filter (fun x => x ≤ thr)
  if 0 < tail.length then meanQ tail else thr

/-- `PortfolioAnalyzer.calculate_conditional_var` (lines 432-474), per
symbol. -/
def calculate_conditional_var (returns : DFQ) (confidence_level : ℚ) : Series ℚ :=
  returns.map (fun nc => (nc.1, cvarCol confidence_level nc.2))

/-- Beta of one column against the market (`calculate_beta` lines 516-520):
`cov(stock, market) / var(market)`. -/
def betaCol (c market : List ℚ) : ℚ := covQ c market / varQ market

/-- `PortfolioAnalyzer.calculate_beta` (lines 476-524): per requested symbol
(all columns when `symbol` is `none`); a requested symbol absent from the
columns raises `ValueError`. -/
def calculate_beta (returns : DFQ) (market : List ℚ) (symbol : Option String) :
    Except String (Series ℚ) :=
  let syms := match symbol with
    | some s => [s]
    | none => returns.map Prod.fst
  if syms.all (fun s => (returns.lookup s).isSome) then
    .ok (syms.map (fun s => (s, betaCol ((returns.lookup s).getD []) market)))
  else
    .error "Symbol not found in returns"

/-- Index-aligned subtraction of two symbol-indexed series, as pandas performs
for `stock_returns - expected_return`: the result is indexed by the union of
the two indexes (pandas additionally sorts the union, which no claim here
observes), with NaN (`none`) wherever a key is missing from either operand. -/
def alignSub (s1 s2 : Series ℚ) : Series (Option ℚ) :=
  let k1 := s1.map Prod.fst
  let keys := k1 ++ (s2.map Prod.fst).filter (fun k => !(k1.contains k))
  keys.map (fun k =>
    (k, match s1.lookup k, s2.lookup k with
        | some a, some b => some (a - b)
        | _, _ => none))

/-- `PortfolioAnalyzer.calculate_alpha` (lines 526-581).  Beta is computed
over *all* columns (the source passes no symbol to `calculate_beta`), the
annualized stock return only over the requested columns, and the CAPM
subtraction aligns the two indexes, so missing keys become NaN.  A requested
symbol absent from the columns raises (`KeyError` in the source's column
selection). -/
def calculate_alpha (rf : ℚ) (returns : DFQ) (market : List ℚ) (trading_days : ℕ)
    (symbol : Option String) : Except String (Series (Option ℚ)) :=
  let syms := match symbol with
    | some s => [s]
    | none => returns.map Prod.fst
  if syms.all (fun s => (returns.lookup s).isSome) then
    let beta := match calculate_beta returns market none with
      | .ok b => b
      | .error _ => []
    let stock : Series ℚ :=
      syms.filterMap (fun s => (returns.lookup s).map
        (fun c => (s, meanQ c * (trading_days : ℚ))))
    let market_return : ℚ := meanQ market * (trading_days : ℚ)
    let expected : Series ℚ :=
      beta.map (fun nb => (nb.1, rf + nb.2 * (market_return - rf)))
    .ok (alignSub stock expected)
  else
    .error "Symbol not found in returns"

/-- `PortfolioAnalyzer.calculate_information_ratio` (lines 583-633): the
annualized mean of the positionally subtracted excess returns over their
annualized standard deviation, per symbol. -/
noncomputable def calculate_information_ratio (returns : DFQ) (benchmark : List ℚ)
    (trading_days : ℕ) : Series ℝ :=
  returns.map (fun nc =>
    let ex := List.zipWith (fun a b => a - b) nc.2 benchmark
    (nc.1, ((meanQ ex * (trading_days : ℚ) : ℚ) : ℝ) /
      (Real.sqrt ((varQ ex : ℚ) : ℝ) * Real.sqrt (trading_days : ℝ))))

/-! ## Report assembly -/

/-- Assigning a symbol-indexed series as a report column: pandas aligns the
series to the report's row index, fills `NaN` (`none`) where a row key is
missing from the series. -/
def assign {α : Type} (idx : List String) (s : Series α) : List (Option α) :=
  idx.map (fun n => s.lookup n)

/-- Assigning a series that itself carries NaN values (Alpha): a missing key
and a present-but-NaN value both yield NaN. -/
def assignO (idx : List String) (s : Series (Option ℚ)) : List (Option ℝ) :=
  idx.map (fun n => ((s.lookup n).bind id).map (fun q => (q : ℝ)))

/-- The risk report: a row index (one row per symbol of the returns matrix)
and named metric columns, each a list of per-row values (NaN as `none`). -/
structure Report where
  index : List String
  cols : List (String × List (Option ℝ))

/-- The report's `VaR (95%)` series: `calculate_value_at_risk(returns, 0.95)`
with the default `historical` method, which always takes the `ok`/`hist`
branch (the other arms are unreachable for this call). -/
noncomputable def varReportSeries (ppf : ℚ → ℝ) (returns : DFQ) : Series ℝ :=
  match calculate_value_at_risk ppf returns (95/100) "historical" with
  | .ok (.hist s) => s.map (fun p => (p.1, ((p.2 : ℚ) : ℝ)))
  | .ok (.param s) => s
  | .error _ => []

/-- The report's `Beta` series: `calculate_beta(returns, market_returns)`
with no symbol, which always succeeds (the error arm is unreachable). -/
def betaReportSeries (returns : DFQ) (market : List ℚ) : Series ℚ :=
  match calculate_beta returns market none with
  | .ok b => b
  | .error _ => []

/-- The report's `Alpha (Annual)` series: `calculate_alpha(returns,
market_returns)` with no symbol, which always succeeds. -/
def alphaReportSeries (rf : ℚ) (returns : DFQ) (market : List ℚ) :
    Series (Option ℚ) :=
  match calculate_alpha rf returns market 252 none with
  | .ok a => a
  | .error _ => []

/-- `PortfolioAnalyzer.generate_risk_report` (lines 635-678): the eight base
metric columns in assignment order, then the three market-relative columns
exactly when `market_returns` is provided.  `ppf` is the external
`scipy.stats.norm.ppf` (never used on these calls), `rf` the engine's
configured risk-free rate. -/
noncomputable def generate_risk_report (ppf : ℚ → ℝ) (rf : ℚ)
    (returns prices : DFQ) (market_returns : Option (List ℚ)) : Report :=
  let idx := returns.map Prod.fst
  let base : List (String × List (Option ℝ)) :=
    [ ("Mean Return (Annual)",
        assign idx (returns.map (fun nc => (nc.1, ((meanQ nc.2 * 252 : ℚ) : ℝ))))),
      ("Volatility (Annual)", assign idx (calculate_volatility returns true 252)),
      ("Variance (Annual)",
        assign idx ((calculate_variance returns true 252).map
          (fun p => (p.1, ((p.2 : ℚ) : ℝ))))),
      ("Sharpe Ratio", assign idx (calculate_sharpe_ratio rf returns 252)),
      ("Sortino Ratio", assign idx (calculate_sortino_ratio rf returns 252)),
      ("Max Drawdown",
        assign idx ((calculate_max_drawdown prices).map
          (fun p => (p.1, ((p.2 : ℚ) : ℝ))))),
      ("VaR (95%)", assign idx (varReportSeries ppf returns)),
      ("CVaR (95%)",
        assign idx ((calculate_conditional_var returns (95/100)).map
          (fun p => (p.1, ((p.2 : ℚ) : ℝ))))) ]
  match market_returns with
  | none => { index := idx, cols := base }
  | some m =>
      { index := idx
        cols := base ++
          [ ("Beta",
              assign idx ((betaReportSeries returns m).map
                (fun p => (p.1, ((p.2 : ℚ) : ℝ))))),
            ("Alpha (Annual)", assignO idx (alphaReportSeries rf returns m)),
            ("Information Ratio",
              assign idx (calculate_information_ratio returns m 252)) ] }

/-! ## The mutable-state model for the frame claim

Python objects are aliased references into a heap.  To state that
`calculate_sortino_ratio` does not mutate the caller's returns matrix, the
heap of live DataFrames is made explicit: the analyzer state holds the store
of DataFrames plus the configured `risk_free_rate`, a caller's matrix is a
store index, `returns.copy()` allocates a fresh store entry, and the clamp
`downside_returns[downside_returns > 0] = 0` is an in-place write to that
fresh entry. -/

structure AState where
  dfs : List DFQ
  risk_free_rate : ℚ

/-- The body of `calculate_sortino_ratio` (lines 300-345) as a state
transformer: read the caller's returns matrix, copy it (a new store entry),
clamp the copy in place, and compute the ratio series from the original means
and the clamped standard deviations. -/
noncomputable def sortino_exec (s : AState) (retRef : ℕ) (trading_days : ℕ) :
    AState × Series ℝ :=
  let returns := s.dfs.getD retRef []
  -- downside_returns = returns.copy()
  let dfs1 := s.dfs ++ [returns]
  let dref := s.dfs.length
  -- downside_returns[downside_returns > 0] = 0  (in place, on the copy)
  let downside := returns.map (fun nc => (nc.1, clampCol nc.2))
  let dfs2 := dfs1.set dref downside
  let result := calculate_sortino_ratio s.risk_free_rate returns trading_days
  ({ dfs := dfs2, risk_free_rate := s.risk_free_rate }, result)


/-- Every element of a `zipWith` comes from a pair of elements of the inputs. -/
theorem mem_zipWith_exists {α β γ : Type} {f : α → β → γ} :
    ∀ {l1 : List α} {l2 : List β} {c : γ}, c ∈ List.zipWith f l1 l2 →
      ∃ a ∈ l1, ∃ b ∈ l2, c = f a b := by
  intro l1
  induction l1 with
  | nil => intro l2 c h; simp at h
  | cons a as ih =>
    intro l2 c h
    cases l2 with
    | nil => simp at h
    | cons b bs =>
      simp only [List.zipWith_cons_cons, List.mem_cons] at h
      rcases h with rfl | h
      · exact ⟨a, by simp, b, by simp, rfl⟩
      · obtain ⟨x, hx, y, hy, rfl⟩ := ih h
        exact ⟨x, by simp [hx], y, by simp [hy], rfl⟩

/-- `zipWith` congruence from a membership-wise equality of the two functions. -/
theorem zipWith_congr_mem {α β γ : Type} {f g : α → β → γ} :
    ∀ (l1 : List α) (l2 : List β), (∀ a ∈ l1, ∀ b ∈ l2, f a b = g a b) →
      List.zipWith f l1 l2 = List.zipWith g l1 l2 := by
  intro l1
  induction l1 with
  | nil => intro l2 h; simp
  | cons a as ih =>
    intro l2 h
    cases l2 with
    | nil => simp
    | cons b bs =>
      simp only [List.zipWith_cons_cons]
      refine congrArg₂ _ (h a (by simp) b (by simp)) (ih bs ?_)
      intro x hx y hy
      exact h x (by simp [hx]) y (by simp [hy])

/-- Core of the returns computation: when every input cell satisfies `P`, for a
shift-map whose cells are NaN against a NaN predecessor and agree with the
clean cell function `g` on `P`-cells, dropping NaN rows removes exactly the
first row, leaving the `g`-matrix of consecutive row pairs. -/
theorem dropna_shiftMap_eq {α : Type} (f g : FV → FV → α) (isN : α → Bool)
    (P : FV → Prop)
    (hnan : ∀ c, isN (f FV.nan c) = true)
    (hgood : ∀ p c, P p → P c → f p c = g p c ∧ isN (g p c) = false)
    (prices : List (List FV)) (hne : prices ≠ [])
    (hrow : ∀ r ∈ prices, r ≠ [])
    (hcells : ∀ r ∈ prices, ∀ c ∈ r, P c) :
    dropnaRows isN (shiftMap f prices) =
      List.zipWith (List.zipWith g) prices prices.tail := by
  obtain ⟨r0, rest, rfl⟩ : ∃ r0 rest, prices = r0 :: rest := by
    cases prices with
    | nil => exact absurd rfl hne
    | cons r0 rest => exact ⟨r0, rest, rfl⟩
  have hr0 : r0 ≠ [] := hrow r0 (by simp)
  obtain ⟨c0, hc0⟩ := List.exists_mem_of_ne_nil r0 hr0
  show List.filter _ (_ :: _) = _
  rw [List.filter_cons]
  have hhead : ((r0.map (fun c => f FV.nan c)).any isN) = true :=
    List.any_eq_true.mpr ⟨f FV.nan c0, List.mem_map.mpr ⟨c0, hc0, rfl⟩, hnan c0⟩
  simp only [hhead, Bool.not_true, if_false]
  have hkeep : ∀ row ∈ List.zipWith (List.zipWith f) (r0 :: rest) rest,
      (!(row.any isN)) = true := by
    intro row hrowmem
    obtain ⟨a, ha, b, hb, rfl⟩ := mem_zipWith_exists hrowmem
    simp only [Bool.not_eq_true', List.any_eq_false]
    intro c hc
    obtain ⟨p, hp, cc, hcc, rfl⟩ := mem_zipWith_exists hc
    have hPp : P p := hcells a ha p hp
    have hPc : P cc := hcells b (List.mem_cons_of_mem r0 hb) cc hcc
    rw [(hgood p cc hPp hPc).1, (hgood p cc hPp hPc).2]
    simp
  rw [List.filter_eq_self.mpr hkeep]
  refine zipWith_congr_mem _ _ ?_
  intro a ha b hb
  refine zipWith_congr_mem _ _ ?_
  intro p hp cc hcc
  exact (hgood p cc (hcells a ha p hp) (hcells b (List.mem_cons_of_mem r0 hb) cc hcc)).1


/-- Claim C1 (amended): for every non-empty price matrix of non-null cells
that are moreover nonzero (for simple returns) or strictly positive (for log
returns), `calculate_returns` produces a matrix with exactly one row fewer
than the price matrix, no null cells, and entries `price[t]/price[t-1] - 1`
(simple) resp. `ln(price[t]/price[t-1])` (log).  The original claim, which
allowed zero prices for simple returns, is refuted by
`calculate_returns_rowcount_ctex`. -/
theorem calculate_returns_spec (prices : List (List FV)) (w : ℕ)
    (hne : prices ≠ []) (hw : 0 < w) (hrow : ∀ r ∈ prices, r.length = w) :
    ((∀ r ∈ prices, ∀ c ∈ r, ∃ q : ℚ, c = FV.fin q ∧ q ≠ 0) →
      ∃ m, calculate_returns prices "simple" = .ok (.simple m) ∧
        m.length = prices.length - 1 ∧
        (∀ r ∈ m, ∀ c ∈ r, c.isNan = false) ∧
        m = List.zipWith (List.zipWith (fun p c => FV.fin (c.toQ / p.toQ - 1)))
              prices prices.tail) ∧
    ((∀ r ∈ prices, ∀ c ∈ r, ∃ q : ℚ, c = FV.fin q ∧ 0 < q) →
      ∃ m, calculate_returns prices "log" = .ok (.log m) ∧
        m.length = prices.length - 1 ∧
        (∀ r ∈ m, ∀ c ∈ r, c.isNan = false) ∧
        m = List.zipWith (List.zipWith
              (fun p c => LV.fin (Real.log ((c.toQ : ℝ) / (p.toQ : ℝ)))))
              prices prices.tail) := by
  have hrne : ∀ r ∈ prices, r ≠ [] := by
    intro r hr hnil
    have := hrow r hr
    rw [hnil] at this
    simp only [List.length_nil] at this
    omega
  constructor
  · intro hcells
    have key := dropna_shiftMap_eq (fun p c => fsub1 (fdiv c p))
      (fun p c => FV.fin (c.toQ / p.toQ - 1)) FV.isNan
      (fun c => ∃ q : ℚ, c = FV.fin q ∧ q ≠ 0)
      (by intro c; cases c <;> rfl)
      (by rintro p c ⟨qp, rfl, hqp⟩ ⟨qc, rfl, hqc⟩
          exact ⟨by simp [fdiv, fsub1, FV.toQ, hqp], rfl⟩)
      prices hne hrne hcells
    refine ⟨_, ?_, ?_, ?_, rfl⟩
    · simp only [calculate_returns, String.reduceEq, reduceIte]
      rw [key]
    · simp only [List.length_zipWith, List.length_tail]
      omega
    · intro r hr c hc
      obtain ⟨a, _, b, _, rfl⟩ := mem_zipWith_exists hr
      obtain ⟨p, _, cc, _, rfl⟩ := mem_zipWith_exists hc
      rfl
  · intro hcells
    have key := dropna_shiftMap_eq (fun p c => flog (fdiv c p))
      (fun p c => LV.fin (Real.log ((c.toQ : ℝ) / (p.toQ : ℝ)))) LV.isNan
      (fun c => ∃ q : ℚ, c = FV.fin q ∧ 0 < q)
      (by intro c; cases c <;> rfl)
      (by rintro p c ⟨qp, rfl, hqp⟩ ⟨qc, rfl, hqc⟩
          have hne0 : qp ≠ 0 := ne_of_gt hqp
          have hpos : 0 < qc / qp := div_pos hqc hqp
          constructor
          · simp only [fdiv, flog, FV.toQ, if_neg hne0, if_pos hpos]
            norm_cast
          · simp only [fdiv, FV.toQ, if_neg hne0]
            rfl)
      prices hne hrne hcells
    refine ⟨_, ?_, ?_, ?_, rfl⟩
    · simp only [calculate_returns, String.reduceEq, reduceIte]
      rw [key]
    · simp only [List.length_zipWith, List.length_tail]
      omega
    · intro r hr c hc
      obtain ⟨a, _, b, _, rfl⟩ := mem_zipWith_exists hr
      obtain ⟨p, _, cc, _, rfl⟩ := mem_zipWith_exists hc
      rfl


/-- The date loop in closed form: the dates are `start + step * i` for
`i = 0 .. (endd - start) / step`. -/
theorem dateRange_closed (step : ℕ) (hs : 0 < step) :
    ∀ n start endd, endd + 1 - start ≤ n →
      dateRange start endd step =
        if start ≤ endd then
          (List.range ((endd - start) / step + 1)).map (fun i => start + step * i)
        else [] := by
  intro n
  induction n with
  | zero =>
    intro start endd h
    rw [dateRange]
    have hgt : ¬ start ≤ endd := by omega
    rw [dif_neg (by tauto), if_neg hgt]
  | succ n ih =>
    intro start endd h
    rw [dateRange]
    by_cases hle : start ≤ endd
    · rw [dif_pos ⟨hs, hle⟩, if_pos hle]
      rw [ih (start + step) endd (by omega)]
      by_cases h2 : start + step ≤ endd
      · rw [if_pos h2]
        have hdiv : (endd - start) / step = ((endd - (start + step)) / step) + 1 := by
          have heq : endd - start = (endd - (start + step)) + step := by omega
          rw [heq, Nat.add_div_right _ hs]
        conv_rhs => rw [hdiv, List.range_succ_eq_map]
        simp only [List.map_cons, List.map_map]
        congr 1
        refine List.map_congr_left ?_
        intro a _
        simp only [Function.comp_apply, Nat.succ_eq_add_one]
        ring
      · rw [if_neg h2]
        have hz : (endd - start) / step = 0 := Nat.div_eq_of_lt (by omega)
        rw [hz]
        simp [List.range_succ]
    · rw [dif_neg (by tauto), if_neg hle]

/-- Membership in the generated date index. -/
theorem dateRange_mem (start endd step x : ℕ) (hs : 0 < step) (hle : start ≤ endd) :
    x ∈ dateRange start endd step ↔ ∃ i ≤ (endd - start) / step, x = start + step * i := by
  rw [dateRange_closed step hs (endd + 1 - start) start endd (le_refl _), if_pos hle]
  simp only [List.mem_map, List.mem_range]
  constructor
  · rintro ⟨i, hi, rfl⟩
    exact ⟨i, by omega, rfl⟩
  · rintro ⟨i, hi, rfl⟩
    exact ⟨i, by omega, rfl⟩

/-- The start date is always in the generated date index. -/
theorem dateRange_start_mem (start endd step : ℕ) (hs : 0 < step) (hle : start ≤ endd) :
    start ∈ dateRange start endd step := by
  rw [dateRange_mem start endd step start hs hle]
  exact ⟨0, Nat.zero_le _, by simp⟩

/-- The end date is in the generated date index exactly when the gap to the
start date is a multiple of the step. -/
theorem dateRange_end_mem (start endd step : ℕ) (hs : 0 < step) (hle : start ≤ endd) :
    endd ∈ dateRange start endd step ↔ (endd - start) % step = 0 := by
  rw [dateRange_mem start endd step endd hs hle]
  constructor
  · rintro ⟨i, _, hx⟩
    have : endd - start = step * i := by omega
    rw [this]
    exact Nat.mul_mod_right step i
  · intro hmod
    have hdvd : step ∣ (endd - start) := Nat.dvd_of_mod_eq_zero hmod
    refine ⟨(endd - start) / step, le_refl _, ?_⟩
    have h2 : step * ((endd - start) / step) = endd - start := Nat.mul_div_cancel' hdvd
    omega


/-- Every recognized interval has a positive step. -/
theorem intervalDelta_pos {interval : String} {delta : ℕ}
    (h : intervalDelta interval = some delta) : 0 < delta := by
  unfold intervalDelta at h
  split_ifs at h <;> (injection h with h2; omega)

/-- Claim C5 (amended): for a recognized interval and `start <= end`, the date
index built by `fetch_historical_data` is the start date stepped by the
interval's fixed delta; it always contains the start date, but the end date
only when the gap is a multiple of the step (always the case for `daily`).
The original claim, that both endpoints are always included, is refuted by
`fetch_dates_end_ctex`. -/
theorem fetch_dates_spec (fetcher : String → ℕ → Option ℚ) (symbols : List String)
    (start_date end_date : ℕ) (interval : String) (delta : ℕ)
    (hdelta : intervalDelta interval = some delta) (hle : start_date ≤ end_date) :
    ∃ df : HistDF,
      (fetch_historical_data fetcher symbols start_date end_date interval).2 = .ok df ∧
      df.dates = (List.range ((end_date - start_date) / delta + 1)).map
          (fun i => start_date + delta * i) ∧
      start_date ∈ df.dates ∧
      (end_date ∈ df.dates ↔ (end_date - start_date) % delta = 0) ∧
      (interval = "daily" → end_date ∈ df.dates) := by
  have hpos : 0 < delta := intervalDelta_pos hdelta
  refine ⟨{ dates := dateRange start_date end_date delta,
            cols := symbols.map (fun s =>
              (s, bfill (ffill ((dateRange start_date end_date delta).map (fun d =>
                    match fetcher s d with
                    | some q => FV.fin q
                    | none => FV.nan))))) }, ?_, ?_, ?_, ?_, ?_⟩
  · unfold fetch_historical_data
    rw [hdelta]
  · show dateRange start_date end_date delta = _
    rw [dateRange_closed delta hpos (end_date + 1 - start_date) start_date end_date
      (le_refl _), if_pos hle]
  · exact dateRange_start_mem start_date end_date delta hpos hle
  · exact dateRange_end_mem start_date end_date delta hpos hle
  · intro hdaily
    subst hdaily
    have h1 : delta = 1 := by
      unfold intervalDelta at hdelta
      simp at hdelta
      omega
    rw [dateRange_end_mem start_date end_date delta hpos hle, h1]
    omega

/-- Counterexample to claim C5 as stated: fetching from day 0 to day 8 with
the `weekly` interval produces the index `[0, 7]`, which does not contain the
end date 8. -/
theorem fetch_dates_end_ctex :
    histDates (fetch_historical_data (fun _ _ => some 1) ["A"] 0 8 "weekly") = [0, 7] ∧
    8 ∉ histDates (fetch_historical_data (fun _ _ => some 1) ["A"] 0 8 "weekly") := by
  have h : histDates (fetch_historical_data (fun _ _ => some 1) ["A"] 0 8 "weekly")
      = [0, 7] := by
    unfold fetch_historical_data histDates
    simp only [intervalDelta, String.reduceEq, reduceIte]
    simp [dateRange]
  refine ⟨h, ?_⟩
  rw [h]
  decide

/-- Claim C6: an unrecognized interval makes `fetch_historical_data` raise
`ValueError` before any fetch is attempted (empty request log), an
unrecognized return type makes `calculate_returns` raise `ValueError`, and an
unrecognized method makes `calculate_value_at_risk` raise `ValueError`; in
each case no result table is produced. -/
theorem invalid_enum_errors (interval return_type method : String)
    (hi : interval ≠ "daily" ∧ interval ≠ "weekly" ∧ interval ≠ "monthly")
    (hr : return_type ≠ "simple" ∧ return_type ≠ "log")
    (hm : method ≠ "historical" ∧ method ≠ "parametric") :
    (∀ fetcher symbols start_date end_date,
      fetch_historical_data fetcher symbols start_date end_date interval =
        ([], .error ("Invalid interval: " ++ interval))) ∧
    (∀ prices, calculate_returns prices return_type =
        .error ("Invalid return_type: " ++ return_type)) ∧
    (∀ ppf returns confidence_level,
      calculate_value_at_risk ppf returns confidence_level method =
        .error ("Invalid method: " ++ method)) := by
  refine ⟨?_, ?_, ?_⟩
  · intro fetcher symbols s e
    unfold fetch_historical_data intervalDelta
    simp [hi.1, hi.2.1, hi.2.2]
  · intro prices
    unfold calculate_returns
    simp [hr.1, hr.2]
  · intro ppf r cl
    unfold calculate_value_at_risk
    simp [hm.1, hm.2]


/-- The mean of a non-empty list of rationals bounded by `B` is at most `B`. -/
theorem meanQ_le_of_forall_le {l : List ℚ} {B : ℚ} (hne : l ≠ [])
    (h : ∀ x ∈ l, x ≤ B) : meanQ l ≤ B := by
  have hlen : 0 < (l.length : ℚ) := by
    have := List.length_pos.mpr hne
    exact_mod_cast this
  rw [meanQ, div_le_iff₀ hlen]
  have hsum : l.sum ≤ l.length • B := List.sum_le_card_nsmul l B h
  rw [nsmul_eq_mul] at hsum
  linarith

/-- Claim C3: for every return column containing an observation strictly below
its historical 95 percent VaR threshold, the 95 percent CVaR is at most the 95
percent historical VaR. -/
theorem cvar_le_var_spec (ppf : ℚ → ℝ) (df : DFQ) (k : ℕ) (name : String)
    (col : List ℚ) (hk : df[k]? = some (name, col))
    (htail : ∃ x ∈ col, x < quantileQ (1/20) col) :
    ∃ s, calculate_value_at_risk ppf df (19/20) "historical" = .ok (.hist s) ∧
      s[k]? = some (name, quantileQ (1/20) col) ∧
      (calculate_conditional_var df (19/20))[k]? = some (name, cvarCol (19/20) col) ∧
      cvarCol (19/20) col ≤ quantileQ (1/20) col := by
  have hq : (1 : ℚ) - 19/20 = 1/20 := by norm_num
  refine ⟨df.map (fun nc => (nc.1, quantileQ (1 - 19/20) nc.2)), ?_, ?_, ?_, ?_⟩
  · simp only [calculate_value_at_risk, String.reduceEq, reduceIte]
  · rw [List.getElem?_map, hk, hq]
    rfl
  · rw [calculate_conditional_var, List.getElem?_map, hk]
    rfl
  · set thr := quantileQ (1/20) col with hthr
    obtain ⟨x, hx, hlt⟩ := htail
    have hxmem : x ∈ col.filter (fun y => decide (y ≤ quantileQ (1 - 19/20) col)) := by
      rw [hq, ← hthr]
      exact List.mem_filter.mpr ⟨hx, decide_eq_true (le_of_lt hlt)⟩
    have hne : col.filter (fun y => decide (y ≤ quantileQ (1 - 19/20) col)) ≠ [] :=
      List.ne_nil_of_mem hxmem
    rw [cvarCol]
    simp only [hq, ← hthr]
    rw [if_pos (List.length_pos.mpr (by rw [hq, ← hthr] at hne; exact hne))]
    refine meanQ_le_of_forall_le (by rw [hq, ← hthr] at hne; exact hne) ?_
    intro y hy
    exact of_decide_eq_true (List.mem_filter.mp hy).2

/-- Claim C4: when no observation of a column lies at or below the historical
VaR threshold, `calculate_conditional_var` returns the threshold itself; when
some observation does, it returns the mean of the observations at or below
the threshold. -/
theorem cvar_fallback_spec (df : DFQ) (cl : ℚ) (k : ℕ) (name : String)
    (col : List ℚ) (hk : df[k]? = some (name, col)) :
    (calculate_conditional_var df cl)[k]? = some (name, cvarCol cl col) ∧
    ((∀ x ∈ col, ¬ x ≤ quantileQ (1 - cl) col) →
      cvarCol cl col = quantileQ (1 - cl) col) ∧
    ((∃ x ∈ col, x ≤ quantileQ (1 - cl) col) →
      cvarCol cl col = meanQ (col.filter (fun x => x ≤ quantileQ (1 - cl) col))) := by
  refine ⟨?_, ?_, ?_⟩
  · rw [calculate_conditional_var, List.getElem?_map, hk]
    rfl
  · intro hnone
    have hnil : col.filter (fun x => decide (x ≤ quantileQ (1 - cl) col)) = [] := by
      rw [List.filter_eq_nil_iff]
      intro a ha
      simp only [decide_eq_true_eq]
      exact hnone a ha
    rw [cvarCol]
    simp only [hnil]
    rfl
  · rintro ⟨x, hx, hle⟩
    have hmem : x ∈ col.filter (fun y => decide (y ≤ quantileQ (1 - cl) col)) :=
      List.mem_filter.mpr ⟨hx, decide_eq_true hle⟩
    rw [cvarCol]
    rw [if_pos (List.length_pos.mpr (List.ne_nil_of_mem hmem))]


/-- On a non-decreasing price column the drawdown is zero at every date. -/
theorem dd_entries_zero (c : List ℚ) (m : ℚ)
    (hchain : List.Chain (· ≤ ·) m c) :
    ∀ v ∈ List.zipWith (fun p mm => (p - mm) / mm) c (cummaxGo m c), v = 0 := by
  induction c generalizing m with
  | nil => simp [cummaxGo]
  | cons x xs ih =>
    cases hchain with
    | cons hmx hrest =>
      intro v hv
      rw [cummaxGo] at hv
      rw [max_eq_right hmx] at hv
      simp only [List.zipWith_cons_cons, List.mem_cons] at hv
      rcases hv with rfl | hv
      · simp
      · exact ih x hrest v hv

/-- A min-fold is bounded by its initial value. -/
theorem foldl_min_le (xs : List ℚ) : ∀ x : ℚ, xs.foldl min x ≤ x := by
  induction xs with
  | nil => intro x; simp
  | cons y ys ih =>
    intro x
    rw [List.foldl_cons]
    exact le_trans (ih (min x y)) (min_le_left x y)

/-- A min-fold over copies of the initial value returns it. -/
theorem foldl_min_const (xs : List ℚ) : ∀ x : ℚ, (∀ v ∈ xs, v = x) →
    xs.foldl min x = x := by
  induction xs with
  | nil => intro x _; rfl
  | cons y ys ih =>
    intro x h
    have hy : y = x := h y (by simp)
    rw [List.foldl_cons, hy, min_self]
    exact ih x (fun v hv => h v (by simp [hv]))

/-- Max drawdown of a non-empty price column is never positive. -/
theorem mddCol_nonpos (col : List ℚ) (hne : col ≠ []) : mddCol col ≤ 0 := by
  obtain ⟨x, xs, rfl⟩ : ∃ x xs, col = x :: xs := by
    cases col with
    | nil => exact absurd rfl hne
    | cons x xs => exact ⟨x, xs, rfl⟩
  rw [mddCol]
  simp only [cummax, List.zipWith_cons_cons, sub_self, zero_div]
  exact foldl_min_le _ 0

/-- Max drawdown of a monotonically non-decreasing price column is zero. -/
theorem mddCol_zero_of_mono (col : List ℚ) (hne : col ≠ [])
    (hchain : List.Chain' (· ≤ ·) col) : mddCol col = 0 := by
  obtain ⟨x, xs, rfl⟩ : ∃ x xs, col = x :: xs := by
    cases col with
    | nil => exact absurd rfl hne
    | cons x xs => exact ⟨x, xs, rfl⟩
  rw [mddCol]
  simp only [cummax, List.zipWith_cons_cons, sub_self, zero_div]
  exact foldl_min_const _ 0 (fun v hv => dd_entries_zero xs x hchain v hv)

/-- Claim C7: for every non-empty strictly positive price column,
`calculate_max_drawdown` reports a value at most 0, and exactly 0 when the
column is monotonically non-decreasing. -/
theorem max_drawdown_spec (prices : DFQ) (k : ℕ) (name : String) (col : List ℚ)
    (hk : prices[k]? = some (name, col)) (hne : col ≠ [])
    (_hpos : ∀ x ∈ col, 0 < x) :
    (calculate_max_drawdown prices)[k]? = some (name, mddCol col) ∧
    mddCol col ≤ 0 ∧
    (List.Chain' (· ≤ ·) col → mddCol col = 0) := by
  refine ⟨?_, mddCol_nonpos col hne, fun h => mddCol_zero_of_mono col hne h⟩
  rw [calculate_max_drawdown, List.getElem?_map, hk]
  rfl

/-- Claim C8: per symbol, annualized volatility is the raw volatility times
the square root of `trading_days`, and annualized variance is the raw
variance times `trading_days` itself. -/
theorem annualization_spec (returns : DFQ) (trading_days : ℕ) :
    calculate_volatility returns true trading_days =
      (calculate_volatility returns false trading_days).map
        (fun nv => (nv.1, nv.2 * Real.sqrt (trading_days : ℝ))) ∧
    calculate_variance returns true trading_days =
      (calculate_variance returns false trading_days).map
        (fun nv => (nv.1, nv.2 * (trading_days : ℚ))) := by
  constructor
  · simp [calculate_volatility]
  · simp [calculate_variance]


/-- Claim C9: `calculate_sortino_ratio` clamps positive returns on a copy, so
the caller's returns matrix in the store is unchanged, the configured
risk-free rate is unchanged, and the result agrees with the pure Sortino
computation on the original matrix. -/
theorem sortino_frame_spec (s : AState) (retRef : ℕ) (trading_days : ℕ)
    (h : retRef < s.dfs.length) :
    (sortino_exec s retRef trading_days).1.dfs[retRef]? = s.dfs[retRef]? ∧
    (sortino_exec s retRef trading_days).1.risk_free_rate = s.risk_free_rate ∧
    (sortino_exec s retRef trading_days).2 =
      calculate_sortino_ratio s.risk_free_rate (s.dfs.getD retRef []) trading_days := by
  refine ⟨?_, rfl, rfl⟩
  show ((s.dfs ++ [s.dfs.getD retRef []]).set s.dfs.length _)[retRef]? = _
  rw [List.getElem?_set_ne (by omega), List.getElem?_append]
  rw [if_pos h]


/-- Claim C2: without a market series the risk report has exactly the eight
base metric columns, with one it has exactly those eight plus Beta, Alpha
(Annual) and Information Ratio, and in both cases every column has one row
per symbol of the returns matrix. -/
theorem risk_report_columns_spec (ppf : ℚ → ℝ) (rf : ℚ) (returns prices : DFQ) :
    (generate_risk_report ppf rf returns prices none).cols.map Prod.fst =
      ["Mean Return (Annual)", "Volatility (Annual)", "Variance (Annual)",
       "Sharpe Ratio", "Sortino Ratio", "Max Drawdown", "VaR (95%)", "CVaR (95%)"] ∧
    (∀ m : List ℚ,
      (generate_risk_report ppf rf returns prices (some m)).cols.map Prod.fst =
        ["Mean Return (Annual)", "Volatility (Annual)", "Variance (Annual)",
         "Sharpe Ratio", "Sortino Ratio", "Max Drawdown", "VaR (95%)", "CVaR (95%)",
         "Beta", "Alpha (Annual)", "Information Ratio"]) ∧
    (∀ mo : Option (List ℚ),
      (generate_risk_report ppf rf returns prices mo).index = returns.map Prod.fst ∧
      ∀ c ∈ (generate_risk_report ppf rf returns prices mo).cols,
        c.2.length = returns.length) := by
  refine ⟨rfl, fun m => rfl, ?_⟩
  intro mo
  cases mo with
  | none =>
    refine ⟨rfl, ?_⟩
    intro c hc
    simp only [generate_risk_report, List.mem_cons, List.not_mem_nil, or_false] at hc
    rcases hc with rfl|rfl|rfl|rfl|rfl|rfl|rfl|rfl <;>
      simp [assign, assignO]
  | some m =>
    refine ⟨rfl, ?_⟩
    intro c hc
    simp only [generate_risk_report, List.cons_append, List.nil_append,
      List.mem_cons, List.not_mem_nil, or_false] at hc
    rcases hc with rfl|rfl|rfl|rfl|rfl|rfl|rfl|rfl|rfl|rfl|rfl <;>
      simp [assign, assignO]

/-- A series lookup succeeds exactly for keys of the index. -/
theorem lookup_isSome_iff {α : Type} (l : List (String × α)) (k : String) :
    ((l.lookup k).isSome = true) ↔ k ∈ l.map Prod.fst := by
  induction l with
  | nil => simp [List.lookup]
  | cons p rest ih =>
    obtain ⟨a, b⟩ := p
    simp only [List.lookup, List.map_cons, List.mem_cons]
    by_cases h : k = a
    · subst h
      simp
    · have hba : (k == a) = false := by simp [h]
      rw [hba]
      simp [ih, h]

/-- Lookup commutes with a key-preserving map of the values. -/
theorem lookup_map_value {α β : Type} (g : String → α → β) (l : List (String × α))
    (k : String) :
    (l.map (fun p => (p.1, g p.1 p.2))).lookup k = (l.lookup k).map (g k) := by
  induction l with
  | nil => rfl
  | cons p rest ih =>
    obtain ⟨a, b⟩ := p
    simp only [List.map_cons, List.lookup]
    by_cases h : k = a
    · subst h
      simp
    · have hba : (k == a) = false := by simp [h]
      rw [hba]
      simp only [ih]

/-- Looking up each of a table's own column names succeeds. -/
theorem all_names_lookup_isSome {α : Type} (l : List (String × α)) :
    ((l.map Prod.fst).all (fun s => (l.lookup s).isSome)) = true := by
  rw [List.all_eq_true]
  intro s hs
  exact (lookup_isSome_iff l s).mpr hs


/-- Lookup in a series built from a key list by a function. -/
theorem lookup_map_self {β : Type} (g : String → β) (names : List String) (k : String) :
    ((names.map (fun n => (n, g n))).lookup k) =
      if k ∈ names then some (g k) else none := by
  induction names with
  | nil => simp [List.lookup]
  | cons a rest ih =>
    simp only [List.map_cons, List.lookup]
    by_cases h : k = a
    · subst h
      simp
    · have hba : (k == a) = false := by simp [h]
      rw [hba]
      simp [ih, h]

/-- The keys of a series built from a key list are that key list. -/
theorem map_fst_map_pair {β : Type} (f : String → β) (l : List String) :
    ((l.map (fun k => (k, f k))).map Prod.fst) = l := by
  induction l with
  | nil => rfl
  | cons a rest ih => simp [ih]

/-- The index of an aligned subtraction is the union of the operand indexes
(first operand's keys first, then the second's missing ones). -/
theorem alignSub_keys (s1 s2 : Series ℚ) :
    (alignSub s1 s2).map Prod.fst =
      s1.map Prod.fst ++
        (s2.map Prod.fst).filter (fun k => !((s1.map Prod.fst).contains k)) := by
  simp only [alignSub]
  exact map_fst_map_pair _ _

/-- Every entry of an aligned subtraction is the difference of the two lookups
of its key, or NaN when either is missing. -/
theorem alignSub_mem (s1 s2 : Series ℚ) (p : String × Option ℚ)
    (hp : p ∈ alignSub s1 s2) :
    p.2 = match s1.lookup p.1, s2.lookup p.1 with
      | some a, some b => some (a - b)
      | _, _ => none := by
  simp only [alignSub, List.mem_map] at hp
  obtain ⟨k, hk, rfl⟩ := hp
  rfl


/-- Claim C10: `calculate_alpha` for a named symbol returns a series indexed
by all symbols of the returns matrix, in which every entry other than the
requested symbol is NaN and the requested symbol's entry is a number, because
beta is computed over all columns while the annualized stock return covers
only the requested symbol and the two are subtracted under index alignment. -/
theorem alpha_alignment_spec (rf : ℚ) (returns : DFQ) (market : List ℚ)
    (trading_days : ℕ) (s : String)
    (_hcols : 2 ≤ returns.length) (hmem : s ∈ returns.map Prod.fst) :
    ∃ a : Series (Option ℚ),
      calculate_alpha rf returns market trading_days (some s) = .ok a ∧
      (∀ n : String, n ∈ a.map Prod.fst ↔ n ∈ returns.map Prod.fst) ∧
      (∀ p ∈ a, p.1 ≠ s → p.2 = none) ∧
      (∃ q : ℚ, (s, some q) ∈ a) := by
  have hsome : (returns.lookup s).isSome = true := (lookup_isSome_iff returns s).mpr hmem
  obtain ⟨cs, hcs⟩ := Option.isSome_iff_exists.mp hsome
  have hall : ([s].all (fun s' => (returns.lookup s').isSome)) = true := by simp [hcs]
  set stock : Series ℚ :=
    [s].filterMap (fun s' => (returns.lookup s').map
      (fun c => (s', meanQ c * (trading_days : ℚ)))) with hstockdef
  set expected : Series ℚ :=
    (match calculate_beta returns market none with
      | .ok b => b
      | .error _ => []).map
      (fun (nb : String × ℚ) => (nb.1, rf + nb.2 * (meanQ market * (trading_days : ℚ) - rf)))
    with hexpdef
  have hstock : stock = [(s, meanQ cs * (trading_days : ℚ))] := by
    rw [hstockdef]
    simp [hcs]
  have hbetaval : (match calculate_beta returns market none with
      | .ok b => b
      | .error _ => []) =
      (returns.map Prod.fst).map
        (fun n => (n, betaCol ((returns.lookup n).getD []) market)) := by
    simp only [calculate_beta]
    rw [if_pos (all_names_lookup_isSome returns)]
  have hexp : expected = (returns.map Prod.fst).map
      (fun n => (n, rf + betaCol ((returns.lookup n).getD []) market *
        (meanQ market * (trading_days : ℚ) - rf))) := by
    rw [hexpdef, hbetaval, List.map_map]
    rfl
  have hstockkeys : stock.map Prod.fst = [s] := by
    rw [hstock]
    rfl
  have hexpkeys : expected.map Prod.fst = returns.map Prod.fst := by
    rw [hexp]
    exact map_fst_map_pair _ _
  have hstocklook : stock.lookup s = some (meanQ cs * (trading_days : ℚ)) := by
    rw [hstock]
    simp [List.lookup]
  have hexplook : expected.lookup s = some (rf + betaCol ((returns.lookup s).getD [])
      market * (meanQ market * (trading_days : ℚ) - rf)) := by
    rw [hexp, lookup_map_self, if_pos hmem]
  refine ⟨alignSub stock expected, ?_, ?_, ?_, ?_⟩
  · simp only [calculate_alpha]
    rw [if_pos hall]
  · intro n
    rw [alignSub_keys, hstockkeys, hexpkeys]
    simp only [List.mem_append, List.mem_filter, List.mem_singleton]
    constructor
    · rintro (rfl | ⟨hn, _⟩)
      · exact hmem
      · exact hn
    · intro hn
      by_cases h : n = s
      · exact Or.inl h
      · exact Or.inr ⟨hn, by simp [h]⟩
  · intro p hp hne
    have hv := alignSub_mem stock expected p hp
    have hlook : stock.lookup p.1 = none := by
      have hbe : (p.1 == s) = false := beq_eq_false_iff_ne.mpr hne
      rw [hstock]
      simp [List.lookup, hbe]
    rw [hlook] at hv
    cases hexp2 : expected.lookup p.1 <;> rw [hexp2] at hv <;> exact hv
  · refine ⟨meanQ cs * (trading_days : ℚ) - (rf + betaCol ((returns.lookup s).getD [])
      market * (meanQ market * (trading_days : ℚ) - rf)), ?_⟩
    have hs_in : s ∈ stock.map Prod.fst ++ (expected.map Prod.fst).filter
        (fun k => !((stock.map Prod.fst).contains k)) := by
      rw [hstockkeys]
      exact List.mem_append_left _ (by simp)
    have hmm := List.mem_map_of_mem
      (fun k => (k, match stock.lookup k, expected.lookup k with
        | some a, some b => some (a - b)
        | _, _ => none)) hs_in
    simp only [hstocklook, hexplook] at hmm
    simp only [alignSub]
    exact hmm


/-- Counterexample to claim C1 as stated: the price matrix
`[[1], [0], [0]]` is non-empty with no null cells, yet its simple returns
matrix has 1 row, not `3 - 1 = 2`: the cell `0 / 0` is NaN and `dropna`
removes that whole row as well. -/
theorem calculate_returns_rowcount_ctex :
    (([[FV.fin 1], [FV.fin 0], [FV.fin 0]] : List (List FV)).all
      (fun r => r.all (fun c => !c.isNan))) = true ∧
    retRows (calculate_returns [[FV.fin 1], [FV.fin 0], [FV.fin 0]] "simple") ≠
      ([[FV.fin 1], [FV.fin 0], [FV.fin 0]] : List (List FV)).length - 1 := by
  exact ⟨by decide, by decide⟩

/-- Witness for the amended claim C1, at the one-column price matrix
`[[4], [2]]`. -/
theorem calculate_returns_spec_witness :
    (([[FV.fin 4], [FV.fin 2]] : List (List FV)) ≠ []) ∧ (0 : ℕ) < 1 ∧
    (∀ r ∈ ([[FV.fin 4], [FV.fin 2]] : List (List FV)), r.length = 1) ∧
    (∃ m, calculate_returns [[FV.fin 4], [FV.fin 2]] "simple" = .ok (.simple m) ∧
      m.length = ([[FV.fin 4], [FV.fin 2]] : List (List FV)).length - 1 ∧
      (∀ r ∈ m, ∀ c ∈ r, c.isNan = false) ∧
      m = List.zipWith (List.zipWith (fun p c => FV.fin (c.toQ / p.toQ - 1)))
            [[FV.fin 4], [FV.fin 2]]
            ([[FV.fin 4], [FV.fin 2]] : List (List FV)).tail) :=
  ⟨by decide, by decide, by decide,
    (calculate_returns_spec [[FV.fin 4], [FV.fin 2]] 1 (by decide) (by decide)
      (by decide)).1
      (by
        intro r hr c hc
        fin_cases hr <;> fin_cases hc <;> exact ⟨_, rfl, by norm_num⟩)⟩

/-- Witness for claim C2 at a concrete one-symbol table, with and without a
market series. -/
theorem risk_report_columns_witness :
    (generate_risk_report (fun _ => (0 : ℝ)) (1/25) [("A", [1, 2])] [("A", [1, 2])]
        none).cols.map Prod.fst =
      ["Mean Return (Annual)", "Volatility (Annual)", "Variance (Annual)",
       "Sharpe Ratio", "Sortino Ratio", "Max Drawdown", "VaR (95%)", "CVaR (95%)"] ∧
    (generate_risk_report (fun _ => (0 : ℝ)) (1/25) [("A", [1, 2])] [("A", [1, 2])]
        (some [1, 2])).cols.map Prod.fst =
      ["Mean Return (Annual)", "Volatility (Annual)", "Variance (Annual)",
       "Sharpe Ratio", "Sortino Ratio", "Max Drawdown", "VaR (95%)", "CVaR (95%)",
       "Beta", "Alpha (Annual)", "Information Ratio"] :=
  ⟨(risk_report_columns_spec (fun _ => (0 : ℝ)) (1/25) [("A", [1, 2])]
      [("A", [1, 2])]).1,
   (risk_report_columns_spec (fun _ => (0 : ℝ)) (1/25) [("A", [1, 2])]
      [("A", [1, 2])]).2.1 [1, 2]⟩

/-- The 5 percent quantile of the sample column `[-1, 0, 1, 0, 2]`. -/
theorem quantile_sample_eval :
    quantileQ (1/20) ([-1, 0, 1, 0, 2] : List ℚ) = -4/5 := by
  have h2 : ((1/5 : ℚ)).floor = ⌊(1/5 : ℚ)⌋ := by
    rw [Rat.floor_def', Rat.floor_def]
  have hf : ((1/5 : ℚ)).floor = 0 := by
    rw [h2, Int.floor_eq_iff]
    constructor <;> norm_num
  norm_num [quantileQ, sortQ, insertSorted, hf]

/-- Witness for claim C3 at the sample column `[-1, 0, 1, 0, 2]`. -/
theorem cvar_le_var_witness :
    (([("A", [-1, 0, 1, 0, 2])] : DFQ)[0]? =
      some ("A", ([-1, 0, 1, 0, 2] : List ℚ))) ∧
    (∃ x ∈ ([-1, 0, 1, 0, 2] : List ℚ),
      x < quantileQ (1/20) ([-1, 0, 1, 0, 2] : List ℚ)) ∧
    (∃ s, calculate_value_at_risk (fun _ => (0 : ℝ)) [("A", [-1, 0, 1, 0, 2])] (19/20)
        "historical" = .ok (.hist s) ∧
      s[0]? = some ("A", quantileQ (1/20) ([-1, 0, 1, 0, 2] : List ℚ)) ∧
      (calculate_conditional_var [("A", [-1, 0, 1, 0, 2])] (19/20))[0]? =
        some ("A", cvarCol (19/20) ([-1, 0, 1, 0, 2] : List ℚ)) ∧
      cvarCol (19/20) ([-1, 0, 1, 0, 2] : List ℚ) ≤
        quantileQ (1/20) ([-1, 0, 1, 0, 2] : List ℚ)) :=
  ⟨rfl, ⟨-1, by norm_num, by rw [quantile_sample_eval]; norm_num⟩,
    cvar_le_var_spec (fun _ => (0 : ℝ)) [("A", [-1, 0, 1, 0, 2])] 0 "A"
      [-1, 0, 1, 0, 2] rfl
      ⟨-1, by norm_num, by rw [quantile_sample_eval]; norm_num⟩⟩

/-- Witness for claim C4 at the column `[1, 2]`. -/
theorem cvar_fallback_witness :
    (([("A", [1, 2])] : DFQ)[0]? = some ("A", [1, 2])) ∧
    ((calculate_conditional_var [("A", [1, 2])] (19/20))[0]? =
      some ("A", cvarCol (19/20) [1, 2]) ∧
    ((∀ x ∈ ([1, 2] : List ℚ), ¬ x ≤ quantileQ (1 - 19/20) [1, 2]) →
      cvarCol (19/20) [1, 2] = quantileQ (1 - 19/20) [1, 2]) ∧
    ((∃ x ∈ ([1, 2] : List ℚ), x ≤ quantileQ (1 - 19/20) [1, 2]) →
      cvarCol (19/20) [1, 2] =
        meanQ (([1, 2] : List ℚ).filter (fun x => x ≤ quantileQ (1 - 19/20) [1, 2])))) :=
  ⟨by decide, cvar_fallback_spec [("A", [1, 2])] (19/20) 0 "A" [1, 2] (by decide)⟩

/-- Witness for the amended claim C5: weekly fetch from day 0 to day 14. -/
theorem fetch_dates_witness :
    intervalDelta "weekly" = some 7 ∧ (0 : ℕ) ≤ 14 ∧
    (∃ df, (fetch_historical_data (fun _ _ => some 1) ["A"] 0 14 "weekly").2 =
        .ok df ∧
      df.dates = (List.range ((14 - 0) / 7 + 1)).map (fun i => 0 + 7 * i) ∧
      (0 : ℕ) ∈ df.dates ∧ ((14 : ℕ) ∈ df.dates ↔ (14 - 0) % 7 = 0) ∧
      ("weekly" = "daily" → (14 : ℕ) ∈ df.dates)) :=
  ⟨rfl, by decide,
    fetch_dates_spec (fun _ _ => some 1) ["A"] 0 14 "weekly" 7 rfl (by decide)⟩

/-- Witness for claim C6 at the unrecognized enum values `hourly`, `exotic`
and `montecarlo`. -/
theorem invalid_enum_errors_witness :
    (("hourly" : String) ≠ "daily" ∧ ("hourly" : String) ≠ "weekly" ∧
      ("hourly" : String) ≠ "monthly") ∧
    (("exotic" : String) ≠ "simple" ∧ ("exotic" : String) ≠ "log") ∧
    (("montecarlo" : String) ≠ "historical" ∧ ("montecarlo" : String) ≠ "parametric") ∧
    ((∀ fetcher symbols start_date end_date,
      fetch_historical_data fetcher symbols start_date end_date "hourly" =
        ([], .error ("Invalid interval: " ++ "hourly"))) ∧
    (∀ prices, calculate_returns prices "exotic" =
        .error ("Invalid return_type: " ++ "exotic")) ∧
    (∀ ppf returns confidence_level,
      calculate_value_at_risk ppf returns confidence_level "montecarlo" =
        .error ("Invalid method: " ++ "montecarlo"))) :=
  ⟨by decide, by decide, by decide,
    invalid_enum_errors "hourly" "exotic" "montecarlo" (by decide) (by decide)
      (by decide)⟩

/-- Witness for claim C7 at the increasing price column `[1, 2, 3]`. -/
theorem max_drawdown_witness :
    (([("A", [1, 2, 3])] : DFQ)[0]? = some ("A", [1, 2, 3])) ∧
    (([1, 2, 3] : List ℚ) ≠ []) ∧ (∀ x ∈ ([1, 2, 3] : List ℚ), 0 < x) ∧
    ((calculate_max_drawdown [("A", [1, 2, 3])])[0]? = some ("A", mddCol [1, 2, 3]) ∧
      mddCol [1, 2, 3] ≤ 0 ∧
      (List.Chain' (· ≤ ·) ([1, 2, 3] : List ℚ) → mddCol [1, 2, 3] = 0)) :=
  ⟨by decide, by decide, by decide,
    max_drawdown_spec [("A", [1, 2, 3])] 0 "A" [1, 2, 3] (by decide) (by decide)
      (by decide)⟩

/-- Witness for claim C8 at a concrete one-symbol returns table. -/
theorem annualization_witness :
    calculate_volatility [("A", [1, 2])] true 252 =
      (calculate_volatility [("A", [1, 2])] false 252).map
        (fun nv => (nv.1, nv.2 * Real.sqrt (252 : ℝ))) ∧
    calculate_variance [("A", [1, 2])] true 252 =
      (calculate_variance [("A", [1, 2])] false 252).map
        (fun nv => (nv.1, nv.2 * (252 : ℚ))) :=
  annualization_spec [("A", [1, 2])] 252

/-- Witness for claim C9 at a store holding one returns table. -/
theorem sortino_frame_witness :
    (0 : ℕ) < (AState.mk [[("A", [1])]] (1/25)).dfs.length ∧
    ((sortino_exec (AState.mk [[("A", [1])]] (1/25)) 0 252).1.dfs[0]? =
        (AState.mk [[("A", [1])]] (1/25)).dfs[0]? ∧
      (sortino_exec (AState.mk [[("A", [1])]] (1/25)) 0 252).1.risk_free_rate =
        (AState.mk [[("A", [1])]] (1/25)).risk_free_rate ∧
      (sortino_exec (AState.mk [[("A", [1])]] (1/25)) 0 252).2 =
        calculate_sortino_ratio (AState.mk [[("A", [1])]] (1/25)).risk_free_rate
          ((AState.mk [[("A", [1])]] (1/25)).dfs.getD 0 []) 252) :=
  ⟨by decide, sortino_frame_spec (AState.mk [[("A", [1])]] (1/25)) 0 252 (by decide)⟩

/-- Witness for claim C10 at a two-symbol returns table. -/
theorem alpha_alignment_witness :
    2 ≤ ([("A", [1, 0]), ("B", [0, 1])] : DFQ).length ∧
    "A" ∈ ([("A", [1, 0]), ("B", [0, 1])] : DFQ).map Prod.fst ∧
    (∃ a, calculate_alpha (1/25) [("A", [1, 0]), ("B", [0, 1])] [1, 2] 252
        (some "A") = .ok a ∧
      (∀ n, n ∈ a.map Prod.fst ↔
        n ∈ ([("A", [1, 0]), ("B", [0, 1])] : DFQ).map Prod.fst) ∧
      (∀ p ∈ a, p.1 ≠ "A" → p.2 = none) ∧
      (∃ q, ("A", some q) ∈ a)) :=
  ⟨by decide, by decide,
    alpha_alignment_spec (1/25) [("A", [1, 0]), ("B", [0, 1])] [1, 2] 252 "A"
      (by decide) (by decide)⟩

end PortfolioAnalyzer
